import Mathlib

/-!
Verification of the `luv` LaTeX environment manager (`src/luv/__init__.py`).

The Python source is shallowly embedded: pure text-processing helpers become
Lean functions over `List Char` / `String`; interactions with the outside
world (the `tlmgr` process, the LaTeX engine, the filesystem) are passed in
explicitly as data (oracle structures), so each embedded operation is a pure,
executable function of the code's inputs plus the observed external behaviour.
-/

/-! ## Basic character/string utilities (Python `str` operations) -/

/-- The whitespace characters stripped by Python `str.strip()`. -/
def pythonSpaceChars : List Char :=
  [' ', '\t', '\n', '\r', '\x0b', '\x0c']

/-- Is `c` whitespace in the sense of Python `str.strip()`? -/
def isSpaceChar (c : Char) : Bool :=
  pythonSpaceChars.contains c

/-- Python `str.strip()` on a character list. -/
def trimL (l : List Char) : List Char :=
  ((l.dropWhile isSpaceChar).reverse.dropWhile isSpaceChar).reverse

/-- Does `l` start with `p`? (Python `str.startswith`.) -/
def startsWithL : List Char → List Char → Bool
  | _, [] => true
  | [], _ :: _ => false
  | c :: cs, d :: ds => c == d && startsWithL cs ds

/-- Is `needle` a contiguous substring of `hay`? (Python `needle in hay`.) -/
def containsSubL : List Char → List Char → Bool
  | [], needle => needle.isEmpty
  | c :: cs, needle => startsWithL (c :: cs) needle || containsSubL cs needle

/-- Python `sub in hay` on strings. -/
def strIn (sub hay : String) : Bool := containsSubL hay.data sub.data

/-- Python `str.endswith`. -/
def strEndsWith (s suf : String) : Bool :=
  startsWithL s.data.reverse suf.data.reverse

/-- Python `str.lower()` (ASCII, as used on package names). -/
def lowerL (l : List Char) : List Char := l.map Char.toLower

/-- Python `str.rstrip(c)`: drop all trailing occurrences of `c`. -/
def rstripCharL (c : Char) (l : List Char) : List Char :=
  (l.reverse.dropWhile (· == c)).reverse

/-- Split a character list on a separator character (Python `str.split(sep)`). -/
def splitOnCharL (sep : Char) : List Char → List (List Char)
  | [] => [[]]
  | c :: cs =>
    match splitOnCharL sep cs with
    | [] => [[]]
    | p :: ps => if c == sep then [] :: p :: ps else (c :: p) :: ps

/-- Split on newlines (Python `str.split` with a newline separator). -/
def splitOnNl (l : List Char) : List (List Char) := splitOnCharL '\n' l

/-- Join with newlines (Python `sep.join` with a newline separator). -/
def joinNl : List (List Char) → List Char
  | [] => []
  | [x] => x
  | x :: y :: ys => x ++ '\n' :: joinNl (y :: ys)

/-- String-level newline join, matching Python `'\n'.join(xs)`. -/
def joinLines : List String → String
  | [] => ""
  | [x] => x
  | x :: y :: ys => x ++ "\n" ++ joinLines (y :: ys)

/-- Lexicographic `≤` on character lists by code point, matching Python
string comparison used by `sorted`. -/
def lexLe : List Char → List Char → Bool
  | [], _ => true
  | _ :: _, [] => false
  | a :: as, b :: bs =>
    if a.val < b.val then true
    else if b.val < a.val then false
    else lexLe as bs

/-- Python `<=` on strings. -/
def strLe (a b : String) : Bool := lexLe a.data b.data

/-- Insert into a `strLe`-sorted list. -/
def insertStr (x : String) : List String → List String
  | [] => [x]
  | y :: ys => if strLe x y then x :: y :: ys else y :: insertStr x ys

/-- Sorting used to model Python `sorted` on strings (set elements, so
stability is irrelevant). -/
def sortStrs : List String → List String
  | [] => []
  | x :: xs => insertStr x (sortStrs xs)

/-- Adjacent-pairs sortedness check for string lists. -/
def isSortedStrs : List String → Bool
  | [] => true
  | [_] => true
  | x :: y :: r => strLe x y && isSortedStrs (y :: r)

/-! ## `PackageResolver.resolve_package_name` (lines 164-213)

The external `tlmgr search --global --file /<pkg>.sty` invocation is modelled
by a `TlmgrWorld` oracle: either the binary is missing (`FileNotFoundError`)
or it ran with a return code and captured stdout. -/

/-- `PackageResolver.CORE_PACKAGES` (lines 59-68). -/
def CORE_PACKAGES : List String :=
  ["fontenc", "inputenc", "textcomp", "ifthen", "calc", "url"]

/-- Observed behaviour of the external `tlmgr` process for one query. -/
inductive TlmgrWorld where
  | missing : TlmgrWorld
  | ran (returncode : Int) (stdout : String) : TlmgrWorld

/-- The candidate-line loop of `resolve_package_name` (lines 187-206):
scan stdout lines; an unindented line ending in a colon is a candidate
package name (minus noise names); a fuzzy case-insensitive substring match
returns immediately, otherwise the first candidate is returned after the
loop; `none` means the loop fell through with no candidates. -/
def tlmgrLoopLines (latexPackage : String) : List String → List String → Option String
  | [], candidates => candidates.head?
  | l :: rest, candidates =>
    let line := String.mk (trimL l.data)
    if line ≠ "" && !(startsWithL line.data " ".data) && strEndsWith line ":" then
      let packageName := String.mk (trimL (rstripCharL ':' line.data))
      if packageName ≠ "" && packageName ≠ "tlmgr" && packageName ≠ "texlive-base" then
        if containsSubL (lowerL packageName.data) (lowerL latexPackage.data)
            || containsSubL (lowerL latexPackage.data) (lowerL packageName.data) then
          some packageName
        else tlmgrLoopLines latexPackage rest (candidates ++ [packageName])
      else tlmgrLoopLines latexPackage rest candidates
    else tlmgrLoopLines latexPackage rest candidates

/-- `PackageResolver.resolve_package_name` (lines 164-213). Returns the
resolution result together with whether the external tool was invoked. -/
def resolvePackageName (world : TlmgrWorld) (latexPackage : String) : Option String × Bool :=
  if CORE_PACKAGES.contains latexPackage then (none, false)
  else
    match world with
    | .missing => (some latexPackage, true)
    | .ran rc out =>
      if rc == 0 && !(trimL out.data).isEmpty then
        let lines := (splitOnNl (trimL out.data)).map String.mk
        match tlmgrLoopLines latexPackage lines [] with
        | some name => (some name, true)
        | none => (some latexPackage, true)
      else (some latexPackage, true)

/-! ## `LaTeXEnvironment._run_latex_pass` (lines 1069-1134)

The engine invocation is modelled by what the code observes afterwards:
whether the expected PDF artifact exists, the process return code, and the
captured output streams. -/

/-- Observation of one LaTeX engine invocation. -/
structure PassObs where
  pdfExists : Bool
  returncode : Int
  stdout : String
  stderr : String

/-- `_run_latex_pass` (lines 1069-1134): failure when the PDF is absent;
with the PDF present, failure exactly when stdout contains a fatal marker;
the return code is only reported in log messages. -/
def runLatexPass (obs : PassObs) : Bool :=
  if !obs.pdfExists then false
  else if strIn "Fatal error" obs.stdout || strIn "Emergency stop" obs.stdout then false
  else true

/-! ## `LaTeXEnvironment._compile_with_bibliography` (lines 1012-1067) -/

/-- Observed external behaviour across the 4-pass sequence: the three
engine invocations (passes 1, 3, 4), whether the `.aux` file exists after
pass 1, and the bibliography processor's success. -/
structure BibWorld where
  pass1 : PassObs
  pass3 : PassObs
  pass4 : PassObs
  auxExists : Bool
  bibOk : Bool

/-- What the sequence did: overall verdict, how many engine passes were
invoked, and whether the bibliography processor (pass 2) was invoked. -/
structure CompileTrace where
  success : Bool
  latexPassesRun : Nat
  bibRun : Bool
deriving DecidableEq, Repr

/-- `_compile_with_bibliography` (lines 1012-1067): pass 1, then pass 2
gated on the `.aux` file (its result `w.bibOk` is only logged), then
passes 3 and 4; a pass-1 or pass-3 failure aborts. -/
def compileWithBibliography (w : BibWorld) : CompileTrace :=
  if !runLatexPass w.pass1 then ⟨false, 1, false⟩
  else
    let bibRun := w.auxExists
    if !runLatexPass w.pass3 then ⟨false, 2, bibRun⟩
    else ⟨runLatexPass w.pass4, 3, bibRun⟩

/-! ## Requirements manifest operations (`latex-requirements.txt`) -/

/-- One line of `LaTeXEnvironment.get_requirements` (lines 464-467): strip
the line, keep it when non-empty and not starting with a comment marker. -/
def keepLine (line : List Char) : Option (List Char) :=
  let l := trimL line
  if l.isEmpty then none
  else if l.head? == some '#' then none
  else some l

/-- Line parsing of `LaTeXEnvironment.get_requirements` (lines 456-469) on a
character list: split into lines, strip each, keep non-empty lines that do
not start with a comment marker. -/
def getRequirementsL (content : List Char) : List (List Char) :=
  (splitOnNl content).filterMap keepLine

/-- `LaTeXEnvironment.get_requirements` (lines 456-469). -/
def getRequirements (content : String) : List String :=
  (getRequirementsL content.data).map String.mk

/-- The header written in front of the package list by
`_update_requirements_file` (lines 574-579) and `remove_package`
(lines 761-766). -/
def reqHeader : String :=
  "# LaTeX package requirements\n# Generated by \x27luv resolve\x27\n\n"

/-- `LaTeXEnvironment._update_requirements_file` (lines 567-583): union the
existing requirement lines with the new packages as a set, then write the
header plus the sorted, deduplicated package list. -/
def updateRequirementsFile (content : String) (packages : List String) : String :=
  let existing := getRequirements content
  let allPackages := (existing ++ packages).dedup
  reqHeader ++ joinLines (sortStrs allPackages) ++ "\n"

/-- The requirements-file effect of `LaTeXEnvironment.remove_package`
(lines 754-770), reached when the external `tlmgr remove` succeeded: if the
package is listed, rewrite the file with the package filtered out and the
remaining lines sorted (note: `sorted` on the filtered list, no
deduplication); otherwise the file is not written. -/
def removePackageFile (content : String) (packageName : String) : String :=
  let requirements := getRequirements content
  if requirements.contains packageName then
    reqHeader ++ joinLines (sortStrs (requirements.filter (fun pkg => pkg ≠ packageName))) ++ "\n"
  else content

/-- The requirements-file effect of the `add` command in `main`
(lines 1461-1470): if the resolved name is not already listed, append it to
the raw file text followed by a newline. -/
def addPackageFile (content : String) (resolvedName : String) : String :=
  let requirements := getRequirements content
  if requirements.contains resolvedName then content
  else content ++ resolvedName ++ "\n"

/-! ## Backend detection: `_get_bibliography_backend` (lines 924-951)

The three regular expressions used there are embedded directly, with
Python `re` semantics specialised to these patterns: the bracket class
of a (non-capturing) option group cannot cross its closing bracket, and
an unescaped dot never matches a newline. -/

/-- Left/right brace characters, written via code points. -/
def lbraceC : Char := Char.ofNat 123

def rbraceC : Char := Char.ofNat 125

/-- Split at the first occurrence of `stop`; `none` when absent. -/
def takeUntilChar (stop : Char) : List Char → Option (List Char × List Char)
  | [] => none
  | c :: cs =>
    if c == stop then some ([], cs)
    else (takeUntilChar stop cs).map (fun p => (c :: p.1, p.2))

/-- Match `\x7b[^\x7d]+\x7d` at the head of the input: an opening brace, a
non-empty capture up to the first closing brace, then the closing brace.
Returns the capture and the rest of the input. -/
def braceCapAt (l : List Char) : Option (List Char × List Char) :=
  match l with
  | c :: r =>
    if c == lbraceC then
      match takeUntilChar rbraceC r with
      | some (cap, rest) => if cap.isEmpty then none else some (cap, rest)
      | none => none
    else none
  | [] => none

/-- Match the pattern `\usepackage\[([^\]]*)\]` followed by the literal
`\x7bbiblatex\x7d` at the head of the input (the biblatex-options regex of
line 930), returning the captured option text and the rest. -/
def biblatexOptMatchAt (l : List Char) : Option (List Char × List Char) :=
  if startsWithL l ("\\usepackage[").data then
    match takeUntilChar ']' (l.drop 12) with
    | some (cap, rest) =>
      if startsWithL rest ("\x7bbiblatex\x7d").data then some (cap, rest.drop 10)
      else none
    | none => none
  else none

/-- `re.findall` driver: scan left to right, on a match record the capture
and resume after it, otherwise advance one character. Every step consumes
at least one character, so `input.length` steps of fuel are always enough. -/
def findallGo (matchAt : List Char → Option (List Char × List Char)) :
    Nat → List Char → List (List Char)
  | 0, _ => []
  | _ + 1, [] => []
  | fuel + 1, c :: cs =>
    match matchAt (c :: cs) with
    | some (cap, rest) => cap :: findallGo matchAt fuel rest
    | none => findallGo matchAt fuel cs

/-- `re.findall`, returning the list of captures. -/
def findallCaps (matchAt : List Char → Option (List Char × List Char))
    (l : List Char) : List (List Char) :=
  findallGo matchAt l.length l

/-- Consume up to and past the first occurrence of `needle`; `none` when
`needle` does not occur. -/
def dropAfterSub : List Char → List Char → Option (List Char)
  | hay, needle =>
    if startsWithL hay needle then some (hay.drop needle.length)
    else
      match hay with
      | [] => none
      | _ :: t => dropAfterSub t needle

/-- Do the literal segments occur in order within one line? This is the
matching of a regex `s1.*s2.*…*sk` against a single newline-free line. -/
def segsInLine : List (List Char) → List Char → Bool
  | [], _ => true
  | s :: rest, line =>
    match dropAfterSub line s with
    | some suffix => segsInLine rest suffix
    | none => false

/-- `re.search` of a pattern made of literal segments joined by `.*`:
since `.` does not match a newline, the pattern matches iff some line of
the content matches. -/
def regexSearchSegs (segs : List String) (content : List Char) : Bool :=
  (splitOnNl content).any (segsInLine (segs.map String.data))

/-- The loop over biblatex option captures (lines 933-937): first capture
containing `backend=biber` selects biber, `backend=bibtex` selects bibtex,
otherwise keep looking. -/
def backendFromOpts : List (List Char) → Option String
  | [] => none
  | m :: rest =>
    if containsSubL m ("backend=biber").data then some "biber"
    else if containsSubL m ("backend=bibtex").data then some "bibtex"
    else backendFromOpts rest

/-- `LaTeXEnvironment._get_bibliography_backend` (lines 924-951) on the
entry file's text. -/
def getBibliographyBackend (content : String) : String :=
  match backendFromOpts (findallCaps biblatexOptMatchAt content.data) with
  | some b => b
  | none =>
    if regexSearchSegs ["\\usepackage", "\x7bbiblatex\x7d"] content.data then "biber"
    else if strIn "\\bibliographystyle\x7b" content then "bibtex"
    else "bibtex"

/-! ## Filesystem model and the dependency scans (`PackageResolver`)

Paths are component lists relative to the filesystem root; the project's
files live under `LatexFS.root`. `read` returning `none` models a missing
(or unreadable) file, which the scanner silently skips. -/

abbrev FPath := List String

/-- The filesystem as observed by the resolver: the project root and the
readable text files. -/
structure LatexFS where
  root : FPath
  files : List (FPath × String)

/-- `Path.read_text` under the try/except of the scanners. -/
def LatexFS.readFile (fs : LatexFS) (p : FPath) : Option String :=
  (fs.files.find? (fun e => e.1 == p)).map (fun e => e.2)

/-- `Path.exists()`. -/
def LatexFS.pathExists (fs : LatexFS) (p : FPath) : Bool :=
  (fs.readFile p).isSome

/-- `(self.project_root / f'{pkg}.sty').exists()` — the local style-file
override check used by both scan passes (lines 292-296 and 343-345). -/
def styExists (fs : LatexFS) (pkg : String) : Bool :=
  fs.pathExists (fs.root ++ [pkg ++ ".sty"])

/-- Match the explicit-declaration regex
`\usepackage(?:\[[^\]]*\])?\x7b([^\x7d]+)\x7d` (line 147) at the head of
the input: the literal command name, an optional bracketed option group
(which cannot contain a closing bracket, so no backtracking is possible
past the first one), then a non-empty brace group, which is captured. -/
def usepackageMatchAt (l : List Char) : Option (List Char × List Char) :=
  if startsWithL l ("\\usepackage").data then
    match l.drop 11 with
    | '[' :: r2 =>
      match takeUntilChar ']' r2 with
      | some (_, after) => braceCapAt after
      | none => none
    | rest => braceCapAt rest
  else none

/-- Match one of the include directives
`\input\x7b([^\x7d]+)\x7d` and friends (lines 150-158): the literal
command name followed by a non-empty brace group, which is captured. -/
def litBraceMatchAt (lit : List Char) (l : List Char) : Option (List Char × List Char) :=
  if startsWithL l lit then braceCapAt (l.drop lit.length) else none

/-- The four include-directive command names, in the order of
`_include_patterns` (lines 150-158). -/
def includeLits : List String :=
  ["\\input", "\\include", "\\subfile", "\\InputIfFileExists"]

/-- All include-directive targets captured in a file's content, pattern by
pattern as in the Python loops (lines 300-302 and 352-354). -/
def includeTargets (content : String) : List (List Char) :=
  includeLits.flatMap (fun lit => findallCaps (litBraceMatchAt lit.data) content.data)

/-- Resolution of one include target (lines 303-310): strip it, append the
`.tex` extension when missing, look next to the including file first and
fall back to the project root. -/
def resolveIncludePath (fs : LatexFS) (cur : FPath) (target : List Char) : FPath :=
  let name := String.mk (trimL target)
  let fname := if strEndsWith name ".tex" then name else name ++ ".tex"
  let p1 := cur.dropLast ++ [fname]
  if fs.pathExists p1 then p1 else fs.root ++ [fname]

/-- The recursive scanners `_scan_file_for_packages` (lines 271-312) and
`_scan_file_for_patterns` (lines 321-363) share one traversal: skip a file
already visited or unreadable, otherwise mark it visited, accumulate its
per-file contribution, and recurse into its resolved include targets
(depth-first, in order). The recursion is written as the equivalent
explicit worklist over the threaded visited-set/accumulator state, with a
step-count fuel; each step consumes one worklist entry, so any fuel bound
large enough to drain the worklist yields the Python function's result. -/
def scanWalk (fs : LatexFS) (contrib : String → List String) :
    Nat → List FPath → List FPath → List String → List FPath × List String
  | 0, _, seen, found => (seen, found)
  | _ + 1, [], seen, found => (seen, found)
  | fuel + 1, p :: work, seen, found =>
    if seen.contains p then scanWalk fs contrib fuel work seen found
    else
      match fs.readFile p with
      | none => scanWalk fs contrib fuel work seen found
      | some content =>
        scanWalk fs contrib fuel
          ((includeTargets content).map (resolveIncludePath fs p) ++ work)
          (p :: seen)
          (found ++ contrib content)

/-- Per-file contribution of the explicit pass (lines 285-297): every
capture of the `\usepackage` regex is split on commas, each part stripped,
and parts with a local style-file override are filtered out. -/
def explicitPkgsOfContent (fs : LatexFS) (content : String) : List String :=
  (findallCaps usepackageMatchAt content.data).flatMap (fun m =>
    (((splitOnCharL ',' m).map trimL).map String.mk).filter
      (fun pkg => !styExists fs pkg))

/-- `PackageResolver.PACKAGE_PATTERNS` (lines 71-139). Each regex there is
a sequence of literal pieces separated by `.*`, so it is represented by
its list of literal segments (a one-element list for a fully literal
regex); `regexSearchSegs` gives these exactly the `re.search` semantics. -/
def PACKAGE_PATTERNS : List (String × List (List String)) :=
  [ ("amsmath", [["\\begin\x7balign"], ["\\begin\x7bequation"], ["\\begin\x7bgather"],
      ["\\begin\x7bmultline"], ["\\begin\x7bsplit\x7d"]]),
    ("amssymb", [["\\mathbb\x7b"], ["\\mathfrak\x7b"], ["\\mathcal\x7b"]]),
    ("amsthm", [["\\newtheorem"], ["\\theoremstyle"], ["\\begin\x7bproof\x7d"]]),
    ("graphicx", [["\\includegraphics"], ["\\rotatebox"], ["\\scalebox"]]),
    ("subfig", [["\\subfloat"], ["\\subref"]]),
    ("subcaption", [["\\subcaptionbox"], ["\\begin\x7bsubfigure\x7d"]]),
    ("tikz", [["\\begin\x7btikzpicture\x7d"], ["\\tikz"], ["\\usetikzlibrary"]]),
    ("pgfplots", [["\\begin\x7baxis\x7d"], ["\\addplot"]]),
    ("booktabs", [["\\toprule"], ["\\midrule"], ["\\bottomrule"]]),
    ("longtable", [["\\begin\x7blongtable\x7d"]]),
    ("array", [["\\newcolumntype"], ["\\arraybackslash"]]),
    ("multirow", [["\\multirow"]]),
    ("multicol", [["\\begin\x7bmulticols\x7d"]]),
    ("colortbl", [["\\rowcolor\x7b"], ["\\columncolor\x7b"], ["\\cellcolor\x7b"],
      ["\\usepackage[", "table", "]\x7bxcolor\x7d"]]),
    ("hyperref", [["\\href\x7b"], ["\\url\x7b"], ["\\hyperlink"], ["\\autoref"]]),
    ("natbib", [["\\citep\x7b"], ["\\citet\x7b"], ["\\citeauthor"]]),
    ("biblatex", [["\\printbibliography"], ["\\addbibresource"], ["\\usepackage", "biblatex"]]),
    ("logreq", [["\\usepackage", "biblatex"]]),
    ("etoolbox", [["\\usepackage", "biblatex"]]),
    ("cleveref", [["\\cref\x7b"], ["\\Cref\x7b"]]),
    ("babel", [["\\selectlanguage"], ["\\foreignlanguage"]]),
    ("geometry", [["\\newgeometry"], ["\\restoregeometry"]]),
    ("setspace", [["\\doublespacing"], ["\\onehalfspacing"], ["\\setstretch"]]),
    ("fancyhdr", [["\\fancyhead"], ["\\fancyfoot"], ["\\pagestyle\x7bfancy\x7d"]]),
    ("titlesec", [["\\titleformat"], ["\\titlespacing"]]),
    ("xcolor", [["\\textcolor\x7b"], ["\\colorbox\x7b"], ["\\definecolor"]]),
    ("color", [["\\color\x7b"]]),
    ("enumitem", [["\\setlist"], ["\\newlist"]]),
    ("listings", [["\\begin\x7blstlisting\x7d"], ["\\lstinputlisting"]]),
    ("minted", [["\\begin\x7bminted\x7d"], ["\\mint\x7b"]]),
    ("verbatim", [["\\begin\x7bverbatim\x7d"]]),
    ("algorithm", [["\\begin\x7balgorithm\x7d"]]),
    ("algorithmic", [["\\begin\x7balgorithmic\x7d"]]),
    ("algorithmicx", [["\\algstore"], ["\\algrestore"]]),
    ("lipsum", [["\\lipsum"]]),
    ("blindtext", [["\\blindtext"], ["\\Blindtext"]]),
    ("todonotes", [["\\todo\x7b"], ["\\missingfigure"]]),
    ("authblk", [["\\author["], ["\\affil\x7b"]]),
    ("float", [["\\newfloat"], ["\\floatstyle"]]),
    ("lineno", [["\\linenumbers"], ["\\modulolinenumbers"]]) ]

/-- Per-file contribution of the inference pass (lines 335-349): for each
catalog entry not already explicitly declared and without a local
style-file override, the package is suggested when any of its signatures
matches the content. -/
def patternPkgsOfContent (fs : LatexFS) (explicitSet : List String)
    (content : String) : List String :=
  PACKAGE_PATTERNS.filterMap (fun ent =>
    if explicitSet.contains ent.1 then none
    else if styExists fs ent.1 then none
    else if ent.2.any (fun pat => regexSearchSegs pat content.data) then some ent.1
    else none)

/-- `_find_explicit_packages` (lines 264-269): scan from the main file with
a fresh visited-set, accumulating into `explicitly_used`. -/
def findExplicitPackages (fs : LatexFS) (fuel : Nat) (mainFile : String) : List String :=
  (scanWalk fs (explicitPkgsOfContent fs) fuel [fs.root ++ [mainFile]] [] []).2

/-- `_scan_for_patterns` (lines 314-319), run after the explicit pass with
`explicitly_used` already complete. -/
def scanForPatterns (fs : LatexFS) (explicitSet : List String) (fuel : Nat)
    (mainFile : String) : List String :=
  (scanWalk fs (patternPkgsOfContent fs explicitSet) fuel [fs.root ++ [mainFile]] [] []).2

/-- Outcome of `PackageResolver.resolve_dependencies`: the two internal
sets and the returned list. Sets are represented as lists and compared by
membership. -/
structure ResolveRun where
  explicitlyUsed : List String
  foundPackages : List String
  resolvedPackages : List String

/-- `PackageResolver.resolve_dependencies` (lines 215-262): explicit pass,
inference pass, per-candidate name resolution over the union (the worker
pool aggregates into a set, so ordering is irrelevant; `resolveName` is
the behaviour of `resolve_package_name` for this session), dropping null
resolutions; then the synthetic biblatex expansion adds `logreq` and
`etoolbox` to the found-set when `biblatex` is among the candidates; the
returned list is the sorted deduplicated resolved set. -/
def resolveDependencies (fs : LatexFS) (resolveName : String → Option String)
    (fuel : Nat) (mainFile : String) : ResolveRun :=
  let explicitlyUsed := findExplicitPackages fs fuel mainFile
  let found0 := scanForPatterns fs explicitlyUsed fuel mainFile
  let allPackages := found0 ++ explicitlyUsed
  let resolved := (allPackages.dedup.filterMap resolveName).dedup
  let found1 :=
    if allPackages.contains "biblatex" then found0 ++ ["logreq", "etoolbox"]
    else found0
  ⟨explicitlyUsed, found1, sortStrs resolved⟩

/-! ## Claim theorems: compilation pass semantics -/

/-- Claim C2: a single compilation pass is reported as success iff the
expected PDF artifact exists and the captured engine output contains
neither fatal marker; in particular the verdict is independent of the
process exit code (so a nonzero exit with an artifact and no fatal text is
success), and a fatal marker forces failure even when the artifact exists. -/
theorem pass_success_iff_artifact_and_no_fatal (obs : PassObs) :
    (runLatexPass obs = true ↔
      (obs.pdfExists = true
        ∧ strIn "Fatal error" obs.stdout = false
        ∧ strIn "Emergency stop" obs.stdout = false))
    ∧ ∀ rc : Int, runLatexPass { obs with returncode := rc } = runLatexPass obs := by
  constructor
  · unfold runLatexPass
    cases h1 : obs.pdfExists <;>
      cases h2 : strIn "Fatal error" obs.stdout <;>
        cases h3 : strIn "Emergency stop" obs.stdout <;>
          simp [h1, h2, h3]
  · intro rc
    rfl

/-- Claim C3: if pass 1 of the 4-pass sequence fails (in particular when it
produces no output artifact), no further engine pass runs, the bibliography
processor never runs, and the sequence reports failure; a pass-3 failure
likewise stops the sequence before pass 4. -/
theorem pass_sequence_aborts_on_failure (w : BibWorld) :
    (w.pass1.pdfExists = false →
      compileWithBibliography w = ⟨false, 1, false⟩)
    ∧ (runLatexPass w.pass1 = false →
      compileWithBibliography w = ⟨false, 1, false⟩)
    ∧ (runLatexPass w.pass1 = true → runLatexPass w.pass3 = false →
      compileWithBibliography w = ⟨false, 2, w.auxExists⟩) := by
  refine ⟨?_, ?_, ?_⟩
  · intro h
    unfold compileWithBibliography runLatexPass
    simp [h]
  · intro h
    unfold compileWithBibliography
    simp [h]
  · intro h1 h3
    unfold compileWithBibliography
    simp [h1, h3]

/-- Witness for C3 at concrete worlds: a pass-1 with no artifact stops the
sequence at one engine invocation; a pass-3 failure stops it at two. -/
theorem pass_sequence_aborts_on_failure_witness :
    compileWithBibliography ⟨⟨false, 0, "", ""⟩, ⟨true, 0, "", ""⟩, ⟨true, 0, "", ""⟩, true, true⟩
        = ⟨false, 1, false⟩
    ∧ compileWithBibliography ⟨⟨true, 0, "", ""⟩, ⟨false, 1, "", ""⟩, ⟨true, 0, "", ""⟩, true, true⟩
        = ⟨false, 2, true⟩ :=
  ⟨(pass_sequence_aborts_on_failure _).1 rfl,
   (pass_sequence_aborts_on_failure _).2.2 (by decide) (by decide)⟩

/-- Claim C4: the bibliography processor (pass 2) runs only when pass 1
succeeded and the `.aux` artifact exists, and its outcome never influences
the verdict or the remaining passes: the sequence behaves identically for
a failed and for a successful pass 2, so the overall compilation can still
succeed after a pass-2 failure. -/
theorem bib_failure_is_nonfatal (w : BibWorld) :
    ((compileWithBibliography w).bibRun = true →
      w.auxExists = true ∧ runLatexPass w.pass1 = true)
    ∧ (∀ b : Bool, compileWithBibliography { w with bibOk := b } = compileWithBibliography w) := by
  constructor
  · intro h
    cases h1 : runLatexPass w.pass1 with
    | false =>
      exfalso
      unfold compileWithBibliography at h
      simp [h1] at h
    | true =>
      refine ⟨?_, rfl⟩
      unfold compileWithBibliography at h
      simp [h1] at h
      cases h3 : runLatexPass w.pass3 <;> simp [h3] at h <;> exact h
  · intro b
    rfl

/-- Witness for C4: a concrete run where the `.aux` file exists, the
bibliography processor fails, and the compilation still succeeds. -/
theorem bib_failure_is_nonfatal_witness :
    (compileWithBibliography ⟨⟨true, 0, "", ""⟩, ⟨true, 0, "", ""⟩, ⟨true, 0, "", ""⟩, true, false⟩).bibRun = true
      → (true = true ∧ runLatexPass ⟨true, 0, "", ""⟩ = true) ∧
    compileWithBibliography ⟨⟨true, 0, "", ""⟩, ⟨true, 0, "", ""⟩, ⟨true, 0, "", ""⟩, true, false⟩
      = ⟨true, 3, true⟩ :=
  fun h => ⟨(bib_failure_is_nonfatal _).1 h, by decide⟩

/-- Claim C5: the bibliography backend decision table on the entry-file
text: an explicit `backend=biber` option yields biber, an explicit
`backend=bibtex` yields bibtex, bare biblatex usage defaults to biber, a
`\bibliographystyle` command without biblatex yields bibtex, and with
neither present the default is bibtex. -/
theorem bibliography_backend_decision_table :
    getBibliographyBackend "\\usepackage[backend=biber]\x7bbiblatex\x7d" = "biber"
    ∧ getBibliographyBackend "\\usepackage[backend=bibtex]\x7bbiblatex\x7d" = "bibtex"
    ∧ getBibliographyBackend "\\usepackage\x7bbiblatex\x7d" = "biber"
    ∧ getBibliographyBackend "\\bibliographystyle\x7bplain\x7d" = "bibtex"
    ∧ getBibliographyBackend "" = "bibtex" := by
  refine ⟨?_, ?_, ?_, ?_, ?_⟩ <;> rfl

/-! ## Claim theorems: package name resolution -/

/-- Claim C9: for every identifier in the Core Package Set,
`resolve_package_name` returns null and performs no external lookup; the
embedded function is pure in the session state, so this holds for every
invocation against every external-world behaviour. -/
theorem core_packages_resolve_to_null (world : TlmgrWorld) (pkg : String)
    (h : pkg ∈ CORE_PACKAGES) :
    resolvePackageName world pkg = (none, false) := by
  unfold resolvePackageName
  rw [if_pos (List.elem_eq_true_of_mem h)]

/-- Witness for C9: the core package `url` resolves to null with no lookup,
whether or not the external tool exists. -/
theorem core_packages_resolve_to_null_witness :
    "url" ∈ CORE_PACKAGES
    ∧ resolvePackageName .missing "url" = (none, false)
    ∧ resolvePackageName (.ran 0 "url:\n stuff\n") "url" = (none, false) :=
  ⟨by decide,
   core_packages_resolve_to_null .missing "url" (by decide),
   core_packages_resolve_to_null (.ran 0 "url:\n stuff\n") "url" (by decide)⟩

/-- Unfolding of `resolvePackageName` for a non-core package when the
external tool is missing. -/
theorem resolvePackageName_noncore_missing (pkg : String)
    (hc : ¬(CORE_PACKAGES.contains pkg = true)) :
    resolvePackageName .missing pkg = (some pkg, true) := by
  unfold resolvePackageName
  rw [if_neg hc]

/-- Unfolding of `resolvePackageName` for a non-core package when the
external tool ran. -/
theorem resolvePackageName_noncore_ran (pkg : String)
    (hc : ¬(CORE_PACKAGES.contains pkg = true)) (rc : Int) (out : String) :
    resolvePackageName (.ran rc out) pkg =
      if rc == 0 && !(trimL out.data).isEmpty then
        match tlmgrLoopLines pkg ((splitOnNl (trimL out.data)).map String.mk) [] with
        | some name => (some name, true)
        | none => (some pkg, true)
      else (some pkg, true) := by
  unfold resolvePackageName
  rw [if_neg hc]

/-- Claim C10: for every identifier outside the Core Package Set,
`resolve_package_name` never returns null; when the external tool is
missing, when its query fails or returns empty output, or when the
candidate-line loop finds nothing, the identifier itself is returned
unchanged. Together with C9 this makes null results occur exactly for
core identifiers. -/
theorem noncore_resolution_never_null (world : TlmgrWorld) (pkg : String)
    (h : pkg ∉ CORE_PACKAGES) :
    (∃ s, (resolvePackageName world pkg).1 = some s)
    ∧ (resolvePackageName .missing pkg).1 = some pkg
    ∧ (∀ (rc : Int) (out : String), (rc == 0) = false →
        (resolvePackageName (.ran rc out) pkg).1 = some pkg)
    ∧ (∀ (rc : Int) (out : String),
        tlmgrLoopLines pkg ((splitOnNl (trimL out.data)).map String.mk) [] = none →
        (resolvePackageName (.ran rc out) pkg).1 = some pkg) := by
  have hc : ¬ (CORE_PACKAGES.contains pkg = true) :=
    fun hc => h (List.mem_of_elem_eq_true hc)
  refine ⟨?_, ?_, ?_, ?_⟩
  · cases world with
    | missing => exact ⟨pkg, by rw [resolvePackageName_noncore_missing pkg hc]⟩
    | ran rc out =>
      rw [resolvePackageName_noncore_ran pkg hc]
      by_cases hrc : (rc == 0 && !(trimL out.data).isEmpty) = true
      · simp only [hrc, if_true]
        cases hloop : tlmgrLoopLines pkg ((splitOnNl (trimL out.data)).map String.mk) [] with
        | none => exact ⟨pkg, rfl⟩
        | some name => exact ⟨name, rfl⟩
      · rw [if_neg hrc]
        exact ⟨pkg, rfl⟩
  · rw [resolvePackageName_noncore_missing pkg hc]
  · intro rc out hrc
    rw [resolvePackageName_noncore_ran pkg hc, if_neg]
    rw [hrc]
    simp
  · intro rc out hloop
    rw [resolvePackageName_noncore_ran pkg hc]
    by_cases hrc : (rc == 0 && !(trimL out.data).isEmpty) = true
    · simp only [hrc, if_true, hloop]
    · rw [if_neg hrc]

/-- Witness for C10: the non-core identifier `tikz` with a missing tool, a
failing query, and an output with no candidate lines. -/
theorem noncore_resolution_never_null_witness :
    "tikz" ∉ CORE_PACKAGES
    ∧ (resolvePackageName .missing "tikz").1 = some "tikz"
    ∧ (resolvePackageName (.ran 1 "tikz:\n x\n") "tikz").1 = some "tikz"
    ∧ (resolvePackageName (.ran 0 " indented only\nno colon line\n") "tikz").1 = some "tikz" :=
  ⟨by decide,
   (noncore_resolution_never_null .missing "tikz" (by decide)).2.1,
   (noncore_resolution_never_null (.ran 1 "tikz:\n x\n") "tikz" (by decide)).2.2.1 1 "tikz:\n x\n" (by decide),
   (noncore_resolution_never_null (.ran 0 " indented only\nno colon line\n") "tikz"
      (by decide)).2.2.2 0 " indented only\nno colon line\n" (by decide)⟩

/-! ## Claim theorems: dependency resolution -/

/-- Claim C8: whenever `biblatex` is in the candidate set (the union of the
inference-pass and explicit-pass results) when `resolve_dependencies` runs,
the companion identifiers `logreq` and `etoolbox` are added to the inferred
set as a side effect of that resolution call. -/
theorem biblatex_expansion_adds_companions (fs : LatexFS)
    (rn : String → Option String) (fuel : Nat) (main : String)
    (h : "biblatex" ∈
      scanForPatterns fs (findExplicitPackages fs fuel main) fuel main
        ++ findExplicitPackages fs fuel main) :
    "logreq" ∈ (resolveDependencies fs rn fuel main).foundPackages
    ∧ "etoolbox" ∈ (resolveDependencies fs rn fuel main).foundPackages := by
  unfold resolveDependencies
  have hcond : (scanForPatterns fs (findExplicitPackages fs fuel main) fuel main
      ++ findExplicitPackages fs fuel main).contains "biblatex" = true :=
    List.elem_eq_true_of_mem h
  simp only [hcond, if_pos]
  constructor
  · exact List.mem_append_right _ (by decide)
  · exact List.mem_append_right _ (by decide)

/-- Witness for C8: a one-file project explicitly using biblatex; the
resolution run adds both companions to the inferred set. -/
theorem biblatex_expansion_adds_companions_witness :
    ("biblatex" ∈
      scanForPatterns ⟨[], [(["main.tex"], "\\usepackage\x7bbiblatex\x7d")]⟩
        (findExplicitPackages ⟨[], [(["main.tex"], "\\usepackage\x7bbiblatex\x7d")]⟩ 4 "main.tex")
        4 "main.tex"
      ++ findExplicitPackages ⟨[], [(["main.tex"], "\\usepackage\x7bbiblatex\x7d")]⟩ 4 "main.tex")
    ∧ "logreq" ∈ (resolveDependencies ⟨[], [(["main.tex"], "\\usepackage\x7bbiblatex\x7d")]⟩
        (fun p => some p) 4 "main.tex").foundPackages
    ∧ "etoolbox" ∈ (resolveDependencies ⟨[], [(["main.tex"], "\\usepackage\x7bbiblatex\x7d")]⟩
        (fun p => some p) 4 "main.tex").foundPackages :=
  ⟨by decide,
   (biblatex_expansion_adds_companions _ (fun p => some p) 4 "main.tex" (by decide)).1,
   (biblatex_expansion_adds_companions _ (fun p => some p) 4 "main.tex" (by decide)).2⟩

/-- `scanWalk` with no fuel returns the current state. -/
theorem scanWalk_zero (fs : LatexFS) (contrib : String → List String)
    (work visited : List FPath) (acc : List String) :
    scanWalk fs contrib 0 work visited acc = (visited, acc) := rfl

/-- `scanWalk` with an empty worklist returns the current state. -/
theorem scanWalk_nil (fs : LatexFS) (contrib : String → List String)
    (n : Nat) (visited : List FPath) (acc : List String) :
    scanWalk fs contrib (n + 1) [] visited acc = (visited, acc) := rfl

/-- `scanWalk` skips an already-visited path. -/
theorem scanWalk_cons_visited (fs : LatexFS) (contrib : String → List String)
    (n : Nat) (p : FPath) (work visited : List FPath) (acc : List String)
    (hv : visited.contains p = true) :
    scanWalk fs contrib (n + 1) (p :: work) visited acc
      = scanWalk fs contrib n work visited acc := by
  simp only [scanWalk]
  rw [if_pos hv]

/-- `scanWalk` skips a missing (or unreadable) file. -/
theorem scanWalk_cons_missing (fs : LatexFS) (contrib : String → List String)
    (n : Nat) (p : FPath) (work visited : List FPath) (acc : List String)
    (hv : visited.contains p = false) (hr : fs.readFile p = none) :
    scanWalk fs contrib (n + 1) (p :: work) visited acc
      = scanWalk fs contrib n work visited acc := by
  have hv' : ¬(visited.contains p = true) := by
    rw [hv]
    exact Bool.false_ne_true
  simp only [scanWalk]
  rw [if_neg hv']
  simp only [hr]

/-- `scanWalk` visits a readable unvisited file: mark it visited, take its
contribution, and push its resolved includes onto the worklist. -/
theorem scanWalk_cons_read (fs : LatexFS) (contrib : String → List String)
    (n : Nat) (p : FPath) (work visited : List FPath) (acc : List String)
    (content : String)
    (hv : visited.contains p = false) (hr : fs.readFile p = some content) :
    scanWalk fs contrib (n + 1) (p :: work) visited acc
      = scanWalk fs contrib n
          ((includeTargets content).map (resolveIncludePath fs p) ++ work)
          (p :: visited) (acc ++ contrib content) := by
  have hv' : ¬(visited.contains p = true) := by
    rw [hv]
    exact Bool.false_ne_true
  simp only [scanWalk]
  rw [if_neg hv']
  simp only [hr]

/-- Accumulator invariant of the shared traversal: every accumulated
package either was in the starting accumulator or is in the per-file
contribution of some file content. -/
theorem scanWalk_acc_pred (fs : LatexFS) (contrib : String → List String)
    (P : String → Prop)
    (hcontrib : ∀ content s, s ∈ contrib content → P s) :
    ∀ (fuel : Nat) (work visited : List FPath) (acc : List String),
      (∀ s ∈ acc, P s) →
      ∀ s ∈ (scanWalk fs contrib fuel work visited acc).2, P s := by
  intro fuel
  induction fuel with
  | zero =>
    intro work visited acc hacc s hs
    rw [scanWalk_zero] at hs
    exact hacc s hs
  | succ n ih =>
    intro work visited acc hacc s hs
    cases work with
    | nil =>
      rw [scanWalk_nil] at hs
      exact hacc s hs
    | cons p rest =>
      cases hv : visited.contains p with
      | true =>
        rw [scanWalk_cons_visited fs contrib n p rest visited acc hv] at hs
        exact ih rest visited acc hacc s hs
      | false =>
        cases hr : fs.readFile p with
        | none =>
          rw [scanWalk_cons_missing fs contrib n p rest visited acc hv hr] at hs
          exact ih rest visited acc hacc s hs
        | some content =>
          rw [scanWalk_cons_read fs contrib n p rest visited acc content hv hr] at hs
          refine ih _ _ _ ?_ s hs
          intro t ht
          rcases List.mem_append.1 ht with h1 | h2
          · exact hacc t h1
          · exact hcontrib content t h2

/-- The explicit pass never accumulates a package with a local style-file
override: the comma-split parts are filtered on exactly that condition. -/
theorem explicitPkgs_sty_false (fs : LatexFS) (content : String) (s : String)
    (h : s ∈ explicitPkgsOfContent fs content) : styExists fs s = false := by
  unfold explicitPkgsOfContent at h
  rcases List.mem_flatMap.1 h with ⟨m, _, hmem⟩
  have hb := List.of_mem_filter hmem
  rw [Bool.not_eq_true'] at hb
  exact hb

/-- The inference pass never accumulates a package with a local style-file
override: catalog entries with an override are skipped. -/
theorem patternPkgs_sty_false (fs : LatexFS) (ex : List String)
    (content : String) (s : String)
    (h : s ∈ patternPkgsOfContent fs ex content) : styExists fs s = false := by
  unfold patternPkgsOfContent at h
  rcases List.mem_filterMap.1 h with ⟨ent, _, hsome⟩
  split at hsome
  · exact absurd hsome (by simp)
  · split at hsome
    · exact absurd hsome (by simp)
    · split at hsome
      · rename_i hsty _
        injection hsome with hes
        rw [← hes]
        exact Bool.of_not_eq_true hsty
      · exact absurd hsome (by simp)

/-- A project whose entry file declares biblatex and which carries a local
`logreq.sty` override. -/
def fsOverride : LatexFS :=
  ⟨[], [(["main.tex"], "\\usepackage\x7bbiblatex\x7d"), (["logreq.sty"], "")]⟩

/-- Counterexample to claim C6 as stated: `logreq` has a local style file
in the project root, yet after `resolve_dependencies` it is in the
inferred set, because the synthetic biblatex expansion adds `logreq` and
`etoolbox` without re-checking local overrides. -/
theorem local_override_counterexample :
    styExists fsOverride "logreq" = true
    ∧ "logreq" ∈ (resolveDependencies fsOverride (fun p => some p) 4 "main.tex").foundPackages := by
  constructor
  · decide
  · decide

/-- Claim C6 (amended): a package with a same-named local `.sty` file in
the project root never enters the Explicit Package Set, and it enters the
Inferred Package Set only when it is one of the two synthetic biblatex
companions (`logreq`, `etoolbox`) and `biblatex` is in the candidate set;
the two scan passes themselves never add an overridden package. -/
theorem local_override_suppression_amended (fs : LatexFS)
    (rn : String → Option String) (fuel : Nat) (main pkg : String)
    (h : styExists fs pkg = true) :
    pkg ∉ (resolveDependencies fs rn fuel main).explicitlyUsed
    ∧ (pkg ∈ (resolveDependencies fs rn fuel main).foundPackages →
        (pkg = "logreq" ∨ pkg = "etoolbox")
        ∧ "biblatex" ∈
            scanForPatterns fs (findExplicitPackages fs fuel main) fuel main
              ++ findExplicitPackages fs fuel main) := by
  have hexp : ∀ s ∈ findExplicitPackages fs fuel main, styExists fs s = false := by
    intro s hs
    exact scanWalk_acc_pred fs (explicitPkgsOfContent fs) (fun t => styExists fs t = false)
      (fun content t ht => explicitPkgs_sty_false fs content t ht)
      fuel [fs.root ++ [main]] [] [] (by intro t ht; cases ht) s hs
  have hpat : ∀ s ∈ scanForPatterns fs (findExplicitPackages fs fuel main) fuel main,
      styExists fs s = false := by
    intro s hs
    exact scanWalk_acc_pred fs
      (patternPkgsOfContent fs (findExplicitPackages fs fuel main))
      (fun t => styExists fs t = false)
      (fun content t ht => patternPkgs_sty_false fs _ content t ht)
      fuel [fs.root ++ [main]] [] [] (by intro t ht; cases ht) s hs
  have hEq : (resolveDependencies fs rn fuel main).explicitlyUsed
      = findExplicitPackages fs fuel main := rfl
  have hF : (resolveDependencies fs rn fuel main).foundPackages
      = (if (scanForPatterns fs (findExplicitPackages fs fuel main) fuel main
              ++ findExplicitPackages fs fuel main).contains "biblatex" = true
         then scanForPatterns fs (findExplicitPackages fs fuel main) fuel main
                ++ ["logreq", "etoolbox"]
         else scanForPatterns fs (findExplicitPackages fs fuel main) fuel main) := rfl
  constructor
  · intro hmem
    rw [hEq] at hmem
    have := hexp pkg hmem
    rw [this] at h
    exact Bool.false_ne_true h
  · intro hmem
    rw [hF] at hmem
    by_cases hcond : (scanForPatterns fs (findExplicitPackages fs fuel main) fuel main
        ++ findExplicitPackages fs fuel main).contains "biblatex" = true
    · rw [if_pos hcond] at hmem
      rcases List.mem_append.1 hmem with h1 | h2
      · have := hpat pkg h1
        rw [this] at h
        exact absurd h Bool.false_ne_true
      · refine ⟨?_, List.mem_of_elem_eq_true hcond⟩
        rcases h2 with _ | ⟨_, h3⟩
        · exact Or.inl rfl
        · rcases h3 with _ | ⟨_, h4⟩
          · exact Or.inr rfl
          · cases h4
    · rw [if_neg hcond] at hmem
      have := hpat pkg hmem
      rw [this] at h
      exact absurd h Bool.false_ne_true

/-- Witness for the amended C6 at the override project: `logreq` is not in
the explicit set, and its presence in the inferred set certifies it is a
biblatex companion with biblatex among the candidates. -/
theorem local_override_suppression_amended_witness :
    styExists fsOverride "logreq" = true
    ∧ ("logreq" ∉ (resolveDependencies fsOverride (fun p => some p) 4 "main.tex").explicitlyUsed
       ∧ ("logreq" ∈ (resolveDependencies fsOverride (fun p => some p) 4 "main.tex").foundPackages →
           ("logreq" = "logreq" ∨ "logreq" = "etoolbox")
           ∧ "biblatex" ∈
               scanForPatterns fsOverride (findExplicitPackages fsOverride 4 "main.tex") 4 "main.tex"
                 ++ findExplicitPackages fsOverride 4 "main.tex")) :=
  ⟨by decide,
   local_override_suppression_amended fsOverride (fun p => some p) 4 "main.tex" "logreq" (by decide)⟩

/-- A two-file project in which the entry file and a second file include
each other, forming an include cycle. -/
def cycleFS (cA cB : String) : LatexFS :=
  ⟨[], [(["main.tex"], cA), (["other.tex"], cB)]⟩

/-- Claim C7: on an include cycle (A includes B, B includes A), either scan
pass terminates: any fuel from four steps up yields the same final state,
in which each resolved path was visited exactly once and the accumulated
set is exactly the per-file contribution of A's content followed by B's —
i.e. the direct scan of the union of the two unique file contents. This is
stated for an arbitrary per-file contribution, so it covers both the
explicit pass and the inference pass. -/
theorem cycle_scan_terminates (contrib : String → List String) (cA cB : String) (n : Nat)
    (hA : includeTargets cA = [("other").data])
    (hB : includeTargets cB = [("main").data]) :
    scanWalk (cycleFS cA cB) contrib (n + 4) [["main.tex"]] [] []
        = ([["other.tex"], ["main.tex"]], contrib cA ++ contrib cB)
    ∧ (scanWalk (cycleFS cA cB) contrib (n + 4) [["main.tex"]] [] []).1.Nodup := by
  have hrA : (cycleFS cA cB).readFile ["main.tex"] = some cA := rfl
  have hrB : (cycleFS cA cB).readFile ["other.tex"] = some cB := rfl
  have hresA : resolveIncludePath (cycleFS cA cB) ["main.tex"] (("other").data)
      = ["other.tex"] := rfl
  have hresB : resolveIncludePath (cycleFS cA cB) ["other.tex"] (("main").data)
      = ["main.tex"] := rfl
  have step1 : scanWalk (cycleFS cA cB) contrib (n + 4) [["main.tex"]] [] []
      = scanWalk (cycleFS cA cB) contrib (n + 3) [["other.tex"]] [["main.tex"]] (contrib cA) := by
    rw [scanWalk_cons_read (cycleFS cA cB) contrib (n + 3) ["main.tex"] [] [] [] cA rfl hrA]
    rw [hA]
    simp [hresA]
  have step2 : scanWalk (cycleFS cA cB) contrib (n + 3) [["other.tex"]] [["main.tex"]] (contrib cA)
      = scanWalk (cycleFS cA cB) contrib (n + 2) [["main.tex"]] [["other.tex"], ["main.tex"]]
          (contrib cA ++ contrib cB) := by
    rw [scanWalk_cons_read (cycleFS cA cB) contrib (n + 2) ["other.tex"] []
        [["main.tex"]] (contrib cA) cB (by decide) hrB]
    rw [hB]
    simp [hresB]
  have step3 : scanWalk (cycleFS cA cB) contrib (n + 2) [["main.tex"]]
        [["other.tex"], ["main.tex"]] (contrib cA ++ contrib cB)
      = scanWalk (cycleFS cA cB) contrib (n + 1) [] [["other.tex"], ["main.tex"]]
          (contrib cA ++ contrib cB) := by
    exact scanWalk_cons_visited (cycleFS cA cB) contrib (n + 1) ["main.tex"] []
      [["other.tex"], ["main.tex"]] (contrib cA ++ contrib cB) (by decide)
  have step4 : scanWalk (cycleFS cA cB) contrib (n + 1) [] [["other.tex"], ["main.tex"]]
        (contrib cA ++ contrib cB)
      = ([["other.tex"], ["main.tex"]], contrib cA ++ contrib cB) :=
    scanWalk_nil (cycleFS cA cB) contrib n [["other.tex"], ["main.tex"]]
      (contrib cA ++ contrib cB)
  have hall := (step1.trans step2).trans (step3.trans step4)
  refine ⟨hall, ?_⟩
  rw [hall]
  exact (by decide : ([["other.tex"], ["main.tex"]] : List FPath).Nodup)

/-- Witness for C7: a concrete cyclic pair of files, scanned with the
explicit pass's per-file contribution. -/
theorem cycle_scan_terminates_witness :
    includeTargets "\\usepackage\x7bamsmath\x7d\\input\x7bother\x7d" = [("other").data]
    ∧ includeTargets "\\usepackage\x7bbooktabs\x7d\\input\x7bmain\x7d" = [("main").data]
    ∧ (scanWalk
        (cycleFS "\\usepackage\x7bamsmath\x7d\\input\x7bother\x7d"
          "\\usepackage\x7bbooktabs\x7d\\input\x7bmain\x7d")
        (explicitPkgsOfContent
          (cycleFS "\\usepackage\x7bamsmath\x7d\\input\x7bother\x7d"
            "\\usepackage\x7bbooktabs\x7d\\input\x7bmain\x7d"))
        (0 + 4) [["main.tex"]] [] []
        = ([["other.tex"], ["main.tex"]],
           explicitPkgsOfContent
             (cycleFS "\\usepackage\x7bamsmath\x7d\\input\x7bother\x7d"
               "\\usepackage\x7bbooktabs\x7d\\input\x7bmain\x7d")
             "\\usepackage\x7bamsmath\x7d\\input\x7bother\x7d"
           ++ explicitPkgsOfContent
             (cycleFS "\\usepackage\x7bamsmath\x7d\\input\x7bother\x7d"
               "\\usepackage\x7bbooktabs\x7d\\input\x7bmain\x7d")
             "\\usepackage\x7bbooktabs\x7d\\input\x7bmain\x7d")
       ∧ (scanWalk
          (cycleFS "\\usepackage\x7bamsmath\x7d\\input\x7bother\x7d"
            "\\usepackage\x7bbooktabs\x7d\\input\x7bmain\x7d")
          (explicitPkgsOfContent
            (cycleFS "\\usepackage\x7bamsmath\x7d\\input\x7bother\x7d"
              "\\usepackage\x7bbooktabs\x7d\\input\x7bmain\x7d"))
          (0 + 4) [["main.tex"]] [] []).1.Nodup) :=
  ⟨by decide, by decide,
   cycle_scan_terminates _ _ _ 0 (by decide) (by decide)⟩

/-! ## Sortedness and permutation lemmas for the requirements writes -/

/-- `lexLe` is total. -/
theorem lexLe_total (a : List Char) : ∀ b, lexLe a b = true ∨ lexLe b a = true := by
  induction a with
  | nil => intro b; left; rfl
  | cons x xs ih =>
    intro b
    cases b with
    | nil => right; rfl
    | cons y ys =>
      by_cases h1 : x.val < y.val
      · left
        simp only [lexLe]
        rw [if_pos h1]
      · by_cases h2 : y.val < x.val
        · right
          simp only [lexLe]
          rw [if_pos h2]
        · have hxy : lexLe (x :: xs) (y :: ys) = lexLe xs ys := by
            simp only [lexLe]
            rw [if_neg h1, if_neg h2]
          have hyx : lexLe (y :: ys) (x :: xs) = lexLe ys xs := by
            simp only [lexLe]
            rw [if_neg h2, if_neg h1]
          rw [hxy, hyx]
          exact ih ys

/-- `strLe` is total. -/
theorem strLe_total (a b : String) : strLe a b = true ∨ strLe b a = true :=
  lexLe_total a.data b.data

/-- Inserting into a sorted list keeps it sorted. -/
theorem isSortedStrs_insertStr (x : String) (l : List String)
    (h : isSortedStrs l = true) : isSortedStrs (insertStr x l) = true := by
  induction l with
  | nil => rfl
  | cons y ys ih =>
    by_cases hxy : strLe x y = true
    · simp only [insertStr]
      rw [if_pos hxy]
      simp [isSortedStrs, hxy, h]
    · have hyx : strLe y x = true := (strLe_total x y).resolve_left hxy
      simp only [insertStr]
      rw [if_neg hxy]
      cases ys with
      | nil => simp [insertStr, isSortedStrs, hyx]
      | cons z zs =>
        have hh : strLe y z = true ∧ isSortedStrs (z :: zs) = true := by
          simpa [isSortedStrs, Bool.and_eq_true] using h
        have hs := ih hh.2
        by_cases hxz : strLe x z = true
        · simp only [insertStr]
          rw [if_pos hxz]
          simp [isSortedStrs, hyx, hxz, hh.2]
        · simp only [insertStr]
          rw [if_neg hxz]
          have hs2 : isSortedStrs (z :: insertStr x zs) = true := by
            simp only [insertStr] at hs
            rw [if_neg hxz] at hs
            exact hs
          simp [isSortedStrs, hh.1, hs2]

/-- Insertion sort produces a sorted list. -/
theorem isSortedStrs_sortStrs (l : List String) : isSortedStrs (sortStrs l) = true := by
  induction l with
  | nil => rfl
  | cons x xs ih => exact isSortedStrs_insertStr x (sortStrs xs) ih

/-- Insertion is a permutation of consing. -/
theorem insertStr_perm (x : String) (l : List String) :
    (insertStr x l).Perm (x :: l) := by
  induction l with
  | nil => exact List.Perm.refl _
  | cons y ys ih =>
    by_cases h : strLe x y = true
    · simp only [insertStr]
      rw [if_pos h]
    · simp only [insertStr]
      rw [if_neg h]
      exact (ih.cons y).trans (List.Perm.swap x y ys)

/-- Insertion sort permutes its input. -/
theorem sortStrs_perm (l : List String) : (sortStrs l).Perm l := by
  induction l with
  | nil => exact List.Perm.refl _
  | cons x xs ih => exact (insertStr_perm x (sortStrs xs)).trans (ih.cons x)

/-! ## Line-splitting lemmas -/

/-- `splitOnCharL` never returns the empty list. -/
theorem splitOnCharL_ne_nil (sep : Char) (l : List Char) :
    splitOnCharL sep l ≠ [] := by
  cases l with
  | nil => simp [splitOnCharL]
  | cons c cs =>
    simp only [splitOnCharL]
    cases splitOnCharL sep cs with
    | nil => simp
    | cons p ps =>
      by_cases h : (c == sep) = true
      · simp [h]
      · simp [h]

/-- Splitting at an explicit separator occurrence after a separator-free
chunk yields that chunk as the first piece. -/
theorem splitOnCharL_append (sep : Char) (a b : List Char) (h : sep ∉ a) :
    splitOnCharL sep (a ++ sep :: b) = a :: splitOnCharL sep b := by
  induction a with
  | nil =>
    simp only [List.nil_append, splitOnCharL]
    rcases List.exists_cons_of_ne_nil (splitOnCharL_ne_nil sep b) with ⟨p, ps, hb⟩
    rw [hb]
    simp
  | cons x xs ih =>
    have hx : ¬((x == sep) = true) := by
      intro hxe
      exact h (by rw [eq_of_beq hxe]; exact List.mem_cons_self _ _)
    have hxs : sep ∉ xs := fun hm => h (List.mem_cons_of_mem x hm)
    rw [List.cons_append]
    simp only [splitOnCharL]
    rw [ih hxs]
    simp [hx]

/-- Every piece produced by `splitOnCharL` is free of the separator. -/
theorem mem_splitOnCharL (sep : Char) (l piece : List Char)
    (hp : piece ∈ splitOnCharL sep l) : sep ∉ piece := by
  induction l generalizing piece with
  | nil =>
    simp [splitOnCharL] at hp
    rw [hp]
    simp
  | cons c cs ih =>
    rcases hsplit : splitOnCharL sep cs with _ | ⟨p, ps⟩
    · exact absurd hsplit (splitOnCharL_ne_nil sep cs)
    · simp only [splitOnCharL, hsplit] at hp
      by_cases hc : (c == sep) = true
      · rw [if_pos hc] at hp
        rcases hp with _ | ⟨_, hp2⟩
        · simp
        · exact ih piece (by rw [hsplit]; exact hp2)
      · rw [if_neg hc] at hp
        rcases hp with _ | ⟨_, hp2⟩
        · intro hmem
          rcases List.mem_cons.1 hmem with h1 | h2
          · exact hc (by rw [← h1]; exact beq_self_eq_true sep)
          · exact ih p (by rw [hsplit]; exact List.mem_cons_self p ps) h2
        · exact ih piece (by rw [hsplit]; exact List.mem_cons_of_mem p hp2)

/-! ## Strip-idempotence lemmas -/

/-- The head of a `dropWhile` result does not satisfy the predicate. -/
theorem dropWhile_head_false (p : Char → Bool) (l : List Char) :
    ∀ x, (l.dropWhile p).head? = some x → p x = false := by
  induction l with
  | nil =>
    intro x h
    simp at h
  | cons c cs ih =>
    intro x h
    rw [List.dropWhile_cons] at h
    by_cases hc : p c = true
    · rw [if_pos hc] at h
      exact ih x h
    · rw [if_neg hc] at h
      have : c = x := by
        simpa using h
      rw [← this]
      exact Bool.of_not_eq_true hc

/-- `dropWhile` is idempotent. -/
theorem dropWhile_idem (p : Char → Bool) (l : List Char) :
    (l.dropWhile p).dropWhile p = l.dropWhile p := by
  cases h : l.dropWhile p with
  | nil => rfl
  | cons c cs =>
    have hc : p c = false := dropWhile_head_false p l c (by rw [h]; rfl)
    rw [List.dropWhile_cons, if_neg (by rw [hc]; exact Bool.false_ne_true)]

/-- Membership in a stripped list implies membership in the original. -/
theorem mem_trimL (c : Char) (l : List Char) (h : c ∈ trimL l) : c ∈ l := by
  unfold trimL at h
  rw [List.mem_reverse] at h
  have h2 : c ∈ (l.dropWhile isSpaceChar).reverse :=
    (List.dropWhile_sublist isSpaceChar).subset h
  rw [List.mem_reverse] at h2
  exact (List.dropWhile_sublist isSpaceChar).subset h2

/-- Python `strip` is idempotent. -/
theorem trimL_idem (l : List Char) : trimL (trimL l) = trimL l := by
  have hd : ∀ x, (l.dropWhile isSpaceChar).head? = some x → isSpaceChar x = false :=
    dropWhile_head_false isSpaceChar l
  have hpre : l.dropWhile isSpaceChar
      = ((l.dropWhile isSpaceChar).reverse.dropWhile isSpaceChar).reverse
        ++ ((l.dropWhile isSpaceChar).reverse.takeWhile isSpaceChar).reverse := by
    calc l.dropWhile isSpaceChar
        = (l.dropWhile isSpaceChar).reverse.reverse := (List.reverse_reverse _).symm
      _ = ((l.dropWhile isSpaceChar).reverse.takeWhile isSpaceChar
            ++ (l.dropWhile isSpaceChar).reverse.dropWhile isSpaceChar).reverse := by
            rw [List.takeWhile_append_dropWhile]
      _ = ((l.dropWhile isSpaceChar).reverse.dropWhile isSpaceChar).reverse
            ++ ((l.dropWhile isSpaceChar).reverse.takeWhile isSpaceChar).reverse :=
            List.reverse_append _ _
  have h1 : (trimL l).dropWhile isSpaceChar = trimL l := by
    unfold trimL
    cases hr : ((l.dropWhile isSpaceChar).reverse.dropWhile isSpaceChar).reverse with
    | nil => rfl
    | cons a t =>
      have ha : (l.dropWhile isSpaceChar).head? = some a := by
        rw [hpre, hr]
        rfl
      rw [List.dropWhile_cons,
        if_neg (by rw [hd a ha]; exact Bool.false_ne_true)]
  unfold trimL
  rw [show trimL l = ((l.dropWhile isSpaceChar).reverse.dropWhile isSpaceChar).reverse from rfl] at h1
  rw [h1, List.reverse_reverse, dropWhile_idem]

/-- Cleanliness of a package-name string: non-empty, already stripped, not
a comment line, and free of newlines — exactly the properties every parsed
requirement line has and every well-formed package name satisfies. -/
def cleanPkg (p : String) : Bool :=
  !p.data.isEmpty && (trimL p.data == p.data)
    && !(p.data.head? == some '#') && !p.data.contains '\n'

/-- An empty line is dropped by the requirements parser. -/
theorem keepLine_nil : keepLine [] = none := rfl

/-- A clean package name survives the requirements parser unchanged. -/
theorem keepLine_clean (y : String) (h : cleanPkg y = true) :
    keepLine y.data = some y.data := by
  unfold cleanPkg at h
  simp only [Bool.and_eq_true, Bool.not_eq_true'] at h
  obtain ⟨⟨⟨h1, h2⟩, h3⟩, h4⟩ := h
  have h2' : trimL y.data = y.data := eq_of_beq h2
  simp only [keepLine]
  rw [h2']
  rw [if_neg (by simp [h1])]
  rw [if_neg (by simp [h3])]

/-- The two comment lines and the blank line written in front of the
package list are all dropped by the requirements parser. -/
theorem getRequirementsL_header (r : List Char) :
    getRequirementsL (reqHeader.data ++ r) = getRequirementsL r := by
  have hdr : reqHeader.data
      = ("# LaTeX package requirements").data
          ++ '\n' :: (("# Generated by \x27luv resolve\x27").data ++ '\n' :: '\n' :: []) := by
    decide
  have hdr2 : reqHeader.data ++ r
      = ("# LaTeX package requirements").data
          ++ '\n' :: (("# Generated by \x27luv resolve\x27").data ++ '\n' :: '\n' :: r) := by
    rw [hdr]
    simp
  unfold getRequirementsL splitOnNl
  rw [hdr2]
  rw [splitOnCharL_append '\n' ("# LaTeX package requirements").data _ (by decide)]
  rw [splitOnCharL_append '\n' ("# Generated by \x27luv resolve\x27").data _ (by decide)]
  rw [show splitOnCharL '\n' ('\n' :: r) = [] :: splitOnCharL '\n' r from
    splitOnCharL_append '\n' [] r (by simp)]
  simp only [List.filterMap_cons]
  rw [show keepLine ("# LaTeX package requirements").data = none from by decide]
  rw [show keepLine ("# Generated by \x27luv resolve\x27").data = none from by decide]
  rw [keepLine_nil]

/-- Parsing back a newline-joined list of clean package names (followed by
the final newline the writers append) recovers exactly that list. -/
theorem getRequirementsL_join (ys : List String)
    (h : ∀ y ∈ ys, cleanPkg y = true) :
    getRequirementsL ((joinLines ys).data ++ ['\n']) = ys.map String.data := by
  induction ys with
  | nil => decide
  | cons y ys ih =>
    have hy := h y (List.mem_cons_self y ys)
    have hnin : '\n' ∉ y.data := by
      intro hm
      have h4 : y.data.contains '\n' = false := by
        have hc := hy
        unfold cleanPkg at hc
        simp only [Bool.and_eq_true, Bool.not_eq_true'] at hc
        exact hc.2
      have h4e : List.elem '\n' y.data = false := h4
      exact absurd (List.elem_eq_true_of_mem hm)
        (by rw [h4e]; exact Bool.false_ne_true)
    have hkeep : keepLine y.data = some y.data := keepLine_clean y hy
    cases ys with
    | nil =>
      show getRequirementsL (y.data ++ ['\n']) = [y.data]
      unfold getRequirementsL splitOnNl
      rw [show (['\n'] : List Char) = '\n' :: [] from rfl]
      rw [splitOnCharL_append '\n' y.data [] hnin]
      simp only [List.filterMap_cons, hkeep]
      rfl
    | cons z zs =>
      have hdata2 : (joinLines (y :: z :: zs)).data
          = y.data ++ '\n' :: (joinLines (z :: zs)).data := by
        show (y ++ "\n" ++ joinLines (z :: zs)).data = _
        rw [String.data_append, String.data_append, List.append_assoc]
        rfl
      show getRequirementsL ((joinLines (y :: z :: zs)).data ++ ['\n']) = _
      rw [hdata2, List.append_assoc, List.cons_append]
      unfold getRequirementsL splitOnNl
      rw [splitOnCharL_append '\n' y.data _ hnin]
      simp only [List.filterMap_cons, hkeep]
      have ih2 := ih (fun t ht => h t (List.mem_cons_of_mem y ht))
      unfold getRequirementsL splitOnNl at ih2
      rw [ih2]
      rfl

/-- Every parsed requirement line is a clean package name. -/
theorem cleanPkg_getRequirements (content : String) :
    ∀ y ∈ getRequirements content, cleanPkg y = true := by
  intro y hy
  unfold getRequirements at hy
  rcases List.mem_map.1 hy with ⟨l, hl, hmk⟩
  unfold getRequirementsL at hl
  rcases List.mem_filterMap.1 hl with ⟨line, hline, hkeep⟩
  simp only [keepLine] at hkeep
  split at hkeep
  · exact absurd hkeep (by simp)
  · split at hkeep
    · exact absurd hkeep (by simp)
    · rename_i hne hhash
      injection hkeep with hlt
      have c1 : (trimL line).isEmpty = false := Bool.of_not_eq_true hne
      have c2 : (trimL (trimL line) == trimL line) = true := by
        rw [trimL_idem]
        exact beq_self_eq_true _
      have c3 : ((trimL line).head? == some '#') = false := Bool.of_not_eq_true hhash
      have hnotin : '\n' ∉ line := mem_splitOnCharL '\n' content.data line hline
      have hnt : '\n' ∉ trimL line := fun hm => hnotin (mem_trimL '\n' line hm)
      have c4 : (trimL line).contains '\n' = false := by
        cases hcont : (trimL line).contains '\n' with
        | false => rfl
        | true =>
          have hcm : '\n' ∈ trimL line := List.mem_of_elem_eq_true hcont
          exact absurd hcm hnt
      rw [← hmk]
      show cleanPkg (String.mk l) = true
      unfold cleanPkg
      show (!l.isEmpty && (trimL l == l) && !(l.head? == some '#') && !l.contains '\n') = true
      rw [← hlt]
      simp [c1, c2, c3, c4, hnt]

/-- Round trip of the writers: the file written as header plus the joined
clean package list parses back to exactly that list. -/
theorem getRequirements_roundtrip (ys : List String)
    (h : ∀ y ∈ ys, cleanPkg y = true) :
    getRequirements (reqHeader ++ joinLines ys ++ "\n") = ys := by
  unfold getRequirements
  have hdata : (reqHeader ++ joinLines ys ++ "\n").data
      = reqHeader.data ++ ((joinLines ys).data ++ ['\n']) := by
    rw [String.data_append, String.data_append, List.append_assoc]
  rw [hdata, getRequirementsL_header, getRequirementsL_join ys h, List.map_map]
  exact List.map_id'' (fun y => rfl) ys

/-- Counterexample to claim C1 as stated: the `add` command appends the
resolved name to the raw file text, so adding `amsmath` to a file listing
`zzz` leaves the package lines unsorted. -/
theorem add_command_breaks_sorted_invariant :
    addPackageFile "zzz\n" "amsmath" = "zzz\namsmath\n"
    ∧ isSortedStrs (getRequirements (addPackageFile "zzz\n" "amsmath")) = false := by
  constructor
  · decide
  · decide

/-- Claim C1 (amended): the requirements-manifest writes of dependency
resolution (`_update_requirements_file`) and of `remove_package` produce
sorted package lines, and the update write is also deduplicated; the `add`
command instead appends the new name to the end of the file without
sorting. The `packages` argument ranges over clean package names (the form
every parsed requirement line takes). -/
theorem requirements_writes_sorted (content : String) (packages : List String)
    (pkg : String) (hclean : ∀ p ∈ packages, cleanPkg p = true) :
    (isSortedStrs (getRequirements (updateRequirementsFile content packages)) = true
     ∧ (getRequirements (updateRequirementsFile content packages)).Nodup)
    ∧ (isSortedStrs (getRequirements (removePackageFile content pkg)) = true
       ∨ removePackageFile content pkg = content) := by
  have hex : ∀ y ∈ getRequirements content, cleanPkg y = true :=
    cleanPkg_getRequirements content
  constructor
  · have hysclean : ∀ y ∈ sortStrs ((getRequirements content ++ packages).dedup),
        cleanPkg y = true := by
      intro y hy
      have h1 : y ∈ (getRequirements content ++ packages).dedup :=
        (sortStrs_perm _).subset hy
      rcases List.mem_append.1 (List.mem_dedup.1 h1) with h2 | h2
      · exact hex y h2
      · exact hclean y h2
    have hrt : getRequirements (updateRequirementsFile content packages)
        = sortStrs ((getRequirements content ++ packages).dedup) := by
      unfold updateRequirementsFile
      exact getRequirements_roundtrip _ hysclean
    rw [hrt]
    exact ⟨isSortedStrs_sortStrs _,
      ((sortStrs_perm _).nodup_iff).2 (List.nodup_dedup _)⟩
  · by_cases hmem : (getRequirements content).contains pkg = true
    · left
      have hfclean : ∀ y ∈ sortStrs ((getRequirements content).filter (fun q => q ≠ pkg)),
          cleanPkg y = true := by
        intro y hy
        have h1 : y ∈ (getRequirements content).filter (fun q => q ≠ pkg) :=
          (sortStrs_perm _).subset hy
        exact hex y (List.mem_of_mem_filter h1)
      have hrt : getRequirements (removePackageFile content pkg)
          = sortStrs ((getRequirements content).filter (fun q => q ≠ pkg)) := by
        unfold removePackageFile
        rw [if_pos hmem]
        exact getRequirements_roundtrip _ hfclean
      rw [hrt]
      exact isSortedStrs_sortStrs _
    · right
      unfold removePackageFile
      rw [if_neg hmem]

/-- Witness for the amended C1 at a concrete unsorted, duplicated file. -/
theorem requirements_writes_sorted_witness :
    (isSortedStrs (getRequirements (updateRequirementsFile "zz\nb\nb\n" ["amsmath"])) = true
     ∧ (getRequirements (updateRequirementsFile "zz\nb\nb\n" ["amsmath"])).Nodup)
    ∧ (isSortedStrs (getRequirements (removePackageFile "zz\nb\nb\n" "zz")) = true
       ∨ removePackageFile "zz\nb\nb\n" "zz" = "zz\nb\nb\n") :=
  requirements_writes_sorted "zz\nb\nb\n" ["amsmath"] "zz" (by decide)
